import Mathlib

/-!
Verification development for a stock anomaly detector.

The repository has two near-identical monitor implementations:
`stock-anomaly-detector/anomaly_detector.py` + `main.py` (the main variant,
with an `AnomalyDetector` class and a `StockMonitor` driver), and a standalone
`stock_anomaly_detector.py`.  The definitions below are shallow embeddings of
those Python functions: prices are exact rationals (idealized floats), the
population standard deviation lives in the reals (it is a square root), and
the external isolation-forest library is abstracted by an explicit prediction
function and a fitted/unfitted model state.
-/

/-- An output/history record: one row of the DataFrames built by
`AnomalyDetector.detect` and stored by `StockMonitor.update_history`
(columns Time, Close, Mean, Std, Method, Anomaly; `none` models `np.nan`). -/
structure Row where
  time : ℤ
  close : ℚ
  mean : Option ℚ
  std : Option ℝ
  method : String
  anomaly : Bool

/-- The timestamps (the 'Time' column) of a list of rows. -/
def timesOf (l : List Row) : List ℤ :=
  l.map Row.time

/-- The trailing window `prices[i - window_size : i]` used by both z-score
implementations. -/
def window (ws : ℕ) (prices : List ℚ) (i : ℕ) : List ℚ :=
  (prices.drop (i - ws)).take ws

/-- `np.mean`: arithmetic mean of a list (0 on the empty list, since `ℚ`
division by zero is zero; the code only applies it to nonempty windows). -/
def npMean (l : List ℚ) : ℚ :=
  l.sum / l.length

/-- Population variance, the square of `np.std`. -/
def npVar (l : List ℚ) : ℚ :=
  ((l.map fun x => (x - npMean l) ^ 2).sum) / l.length

/-- `np.std`: population standard deviation. -/
noncomputable def npStd (l : List ℚ) : ℝ :=
  Real.sqrt (npVar l)

/-- The z-score computed in the loop body of
`AnomalyDetector.z_score_detection`: zero when the window standard deviation
is zero (equivalently, when the window variance is zero), otherwise
`(prices[i] - mean) / std`. -/
noncomputable def zScoreAt (ws : ℕ) (prices : List ℚ) (i : ℕ) : ℝ :=
  if npVar (window ws prices i) = 0 then 0
  else ((prices.getD i 0 : ℝ) - (npMean (window ws prices i) : ℝ)) /
    npStd (window ws prices i)

/-- The `means` array of `AnomalyDetector.z_score_detection`: initialized to
zeros, assigned the window mean for each `i` in `[window_size, len)`. -/
def meansAt (ws : ℕ) (prices : List ℚ) (i : ℕ) : ℚ :=
  if ws ≤ i ∧ i < prices.length then npMean (window ws prices i) else 0

/-- The `stds` array of `AnomalyDetector.z_score_detection`. -/
noncomputable def stdsAt (ws : ℕ) (prices : List ℚ) (i : ℕ) : ℝ :=
  if ws ≤ i ∧ i < prices.length then npStd (window ws prices i) else 0

section
open Classical

/-- The `anomalies` array of `AnomalyDetector.z_score_detection`: initialized
to zeros (false), set to `abs(z_score) > threshold` for each `i` in
`[window_size, len)`. -/
noncomputable def anomaliesAt (ws : ℕ) (t : ℚ) (prices : List ℚ) (i : ℕ) : Bool :=
  if ws ≤ i ∧ i < prices.length then decide (|zScoreAt ws prices i| > (t : ℝ))
  else false

end

/-- `data['Close'].values` for a batch modelled as (timestamp, close) pairs. -/
def pricesOf (data : List (ℤ × ℚ)) : List ℚ :=
  data.map Prod.snd

/-- `data.index` for a batch modelled as (timestamp, close) pairs. -/
def timestampsOf (data : List (ℤ × ℚ)) : List ℤ :=
  data.map Prod.fst

/-- The record list built by `AnomalyDetector.detect` on the `zscore` path:
for each index with a truthy `anomalies[i]`, a row with the window mean and
standard deviation attached. -/
noncomputable def zscoreRecords (ws : ℕ) (t : ℚ) (data : List (ℤ × ℚ)) : List Row :=
  ((List.range data.length).filter fun i => anomaliesAt ws t (pricesOf data) i).map
    fun i =>
      ⟨(timestampsOf data).getD i 0, (pricesOf data).getD i 0,
        some (meansAt ws (pricesOf data) i), some (stdsAt ws (pricesOf data) i),
        "zscore", true⟩

theorem npVar_nonneg (l : List ℚ) : 0 ≤ npVar l := by
  apply div_nonneg
  · apply List.sum_nonneg
    intro x hx
    rcases List.mem_map.mp hx with ⟨y, _, rfl⟩
    exact sq_nonneg _
  · exact_mod_cast Nat.zero_le _

theorem npStd_nonneg (l : List ℚ) : 0 ≤ npStd l :=
  Real.sqrt_nonneg _

/-- The branch on `std == 0` in the source collapses: over `ℝ` (where division
by zero is zero) the z-score is always `(prices[i] - mean) / std`. -/
theorem zScoreAt_eq (ws : ℕ) (prices : List ℚ) (i : ℕ) :
    zScoreAt ws prices i =
      ((prices.getD i 0 : ℝ) - (npMean (window ws prices i) : ℝ)) /
        npStd (window ws prices i) := by
  unfold zScoreAt
  by_cases h : npVar (window ws prices i) = 0
  · rw [if_pos h, npStd, h]
    simp
  · rw [if_neg h]

section
open Classical

theorem anomaliesAt_eq_decide (ws : ℕ) (t : ℚ) (prices : List ℚ) (i : ℕ)
    (hi : i < prices.length) :
    anomaliesAt ws t prices i =
      decide (ws ≤ i ∧ (t : ℝ) <
        |((prices.getD i 0 : ℝ) - (npMean (window ws prices i) : ℝ)) /
          npStd (window ws prices i)|) := by
  unfold anomaliesAt
  by_cases hws : ws ≤ i
  · rw [if_pos ⟨hws, hi⟩, zScoreAt_eq]
    apply decide_eq_decide.mpr
    constructor
    · intro h
      exact ⟨hws, h⟩
    · intro h
      exact h.2
  · rw [if_neg (fun h => hws h.1)]
    symm
    apply decide_eq_false
    intro h
    exact hws h.1

end

theorem window_length (ws : ℕ) (prices : List ℚ) (i : ℕ)
    (h1 : ws ≤ i) (h2 : i < prices.length) :
    (window ws prices i).length = ws := by
  unfold window
  rw [List.length_take, List.length_drop]
  omega

/-- A model instance of the external isolation-forest library: constructed
with a contamination hyperparameter, and fitted (or not) on some training
data.  `IsolationForest(contamination=0.05)` yields an unfitted instance;
`.fit(X)` records the training data. -/
structure IFModel where
  contamination : ℚ
  fitted : Option (List ℚ)
deriving DecidableEq

/-- The `self.models` dictionary of `AnomalyDetector`, keyed by the tuple of
the leading `window_size` prices. -/
abbrev Cache := List (List ℚ × IFModel)

/-- Dictionary lookup `self.models[model_key]` / `model_key in self.models`. -/
def lookupCache (c : Cache) (k : List ℚ) : Option IFModel :=
  (c.find? fun e => decide (e.1 = k)).map Prod.snd

/-- Dictionary assignment `self.models[model_key] = m` (one entry per key). -/
def insertCache (c : Cache) (k : List ℚ) (m : IFModel) : Cache :=
  (k, m) :: c.filter fun e => decide (e.1 ≠ k)

/-- `model.predict(X)` of the external library, abstracted: `pf` maps the
training data and the input to the raw predictions (-1 for outliers).
Calling predict on an unfitted model raises. -/
def IFModel.predictE (pf : List ℚ → List ℚ → List ℤ) (m : IFModel)
    (xs : List ℚ) : Except String (List Bool) :=
  match m.fitted with
  | none => .error "model not fitted"
  | some tr => .ok ((pf tr xs).map fun v => decide (v = -1))

/-- Result of one call to `AnomalyDetector.isolation_forest_detection`:
the model cache afterwards, the number of fit attempts made during the call,
and either the boolean outlier flags `(preds == -1)` or a raised error. -/
structure IFOut where
  models : Cache
  fitAttempts : ℕ
  result : Except String (List Bool)

/-- `AnomalyDetector.isolation_forest_detection`: return all-zero flags when
`len(prices) < window_size * 2`; otherwise key the cache by the leading
`window_size` prices, fit-and-cache a fresh `IsolationForest` on the leading
`window_size` prices when the key is absent (the unfitted instance is stored
in the cache before `.fit` runs, so a fit failure leaves it cached), and run
the cached model's prediction over the entire input. -/
def isolation_forest_detection (pf : List ℚ → List ℚ → List ℤ) (fitOk : Bool)
    (ws : ℕ) (models : Cache) (prices : List ℚ) : IFOut :=
  if prices.length < ws * 2 then
    ⟨models, 0, .ok (List.replicate prices.length false)⟩
  else
    match lookupCache models (prices.take ws) with
    | some m => ⟨models, 0, m.predictE pf prices⟩
    | none =>
      let m0 : IFModel := ⟨1 / 20, none⟩
      let models1 := insertCache models (prices.take ws) m0
      if fitOk then
        let m1 : IFModel := ⟨1 / 20, some (prices.take ws)⟩
        let models2 := insertCache models1 (prices.take ws) m1
        ⟨models2, 1, m1.predictE pf prices⟩
      else
        ⟨models1, 1, .error "fit raised"⟩

/-- The record list built by `AnomalyDetector.detect` on the `isolation`
path: rows only for truthy flags, with `Mean`/`Std` set to `np.nan`. -/
def isolationRecords (data : List (ℤ × ℚ)) (flags : List Bool) : List Row :=
  ((List.range data.length).filter fun i => flags.getD i false).map
    fun i =>
      ⟨(timestampsOf data).getD i 0, (pricesOf data).getD i 0,
        none, none, "isolation", true⟩

/-- `AnomalyDetector.detect`: `None` when the batch has fewer than
`window_size` points; otherwise dispatch on the method string, raising
`ValueError` on an unknown method; the result keeps only rows whose
`anomalies[i]` flag is truthy.  The returned cache is the `self.models`
dictionary after the call. -/
noncomputable def detect (pf : List ℚ → List ℚ → List ℤ) (fitOk : Bool)
    (ws : ℕ) (t : ℚ) (models : Cache) (data : List (ℤ × ℚ)) (method : String) :
    Cache × Except String (Option (List Row)) :=
  if data.length < ws then (models, .ok none)
  else if method = "zscore" then
    (models, .ok (some (zscoreRecords ws t data)))
  else if method = "isolation" then
    let o := isolation_forest_detection pf fitOk ws models (pricesOf data)
    match o.result with
    | .error e => (o.models, .error e)
    | .ok flags => (o.models, .ok (some (isolationRecords data flags)))
  else (models, .error ("Unknown method: " ++ method))

/-- `pandas.DataFrame.drop_duplicates(subset=['Time'])`: keep a row exactly
when its timestamp has not occurred earlier (in `seen`, or in an earlier
kept row); the first occurrence of each timestamp survives with its values. -/
def dropDupFirst (seen : List ℤ) : List Row → List Row
  | [] => []
  | r :: rs =>
    if r.time ∈ seen then dropDupFirst seen rs
    else r :: dropDupFirst (r.time :: seen) rs

/-- `StockMonitor.update_history` (main.py): when the new DataFrame is not
`None` and not empty, concatenate the stored series with it and drop
duplicate timestamps keeping the first occurrence; the result is not
re-sorted. -/
def update_history (hist : List Row) (nd : Option (List Row)) : List Row :=
  match nd with
  | none => hist
  | some [] => hist
  | some (r :: rs) => dropDupFirst [] (hist ++ r :: rs)

/-- Ascending order by timestamp. -/
def sortedByTime (l : List Row) : Prop :=
  l.Pairwise fun a b => a.time ≤ b.time

/-- One iteration of the per-ticker body of `StockMonitor.monitor` (main.py):
validate the fetched data (skip on `None` or empty), run the z-score and
isolation detectors, and merge their result DataFrames — not the batch —
into the stored series.  An exception raised by the isolation path is caught
by the per-ticker handler: the history is left untouched but the mutation of
the shared model cache persists. -/
noncomputable def process_ticker (pf : List ℚ → List ℚ → List ℤ) (fitOk : Bool)
    (ws : ℕ) (t : ℚ) (models : Cache) (hist : List Row)
    (data : Option (List (ℤ × ℚ))) : Cache × List Row :=
  match data with
  | none => (models, hist)
  | some d =>
    if d.isEmpty then (models, hist)
    else
      match detect pf fitOk ws t models d "zscore" with
      | (_, .error _) => (models, hist)
      | (_, .ok zr) =>
        match detect pf fitOk ws t models d "isolation" with
        | (models1, .error _) => (models1, hist)
        | (models1, .ok ir) =>
          (models1, update_history (update_history hist zr) ir)

/-- The trailing window slice of `StockMonitor.detect_anomalies`
(standalone `stock_anomaly_detector.py`). -/
def window2 (ws : ℕ) (prices : List ℚ) (i : ℕ) : List ℚ :=
  (prices.drop (i - ws)).take ws

/-- `np.mean` as used by `StockMonitor.detect_anomalies`. -/
def mean2 (l : List ℚ) : ℚ :=
  l.sum / l.length

/-- The square of `np.std` as used by `StockMonitor.detect_anomalies`. -/
def var2 (l : List ℚ) : ℚ :=
  ((l.map fun x => (x - mean2 l) ^ 2).sum) / l.length

/-- `np.std` as used by `StockMonitor.detect_anomalies`. -/
noncomputable def std2 (l : List ℚ) : ℝ :=
  Real.sqrt (var2 l)

/-- The z-score computed in the loop body of
`StockMonitor.detect_anomalies`: zero when the window standard deviation is
zero, otherwise `(current_price - mean) / std`. -/
noncomputable def zScore2 (ws : ℕ) (prices : List ℚ) (i : ℕ) : ℝ :=
  if var2 (window2 ws prices i) = 0 then 0
  else ((prices.getD i 0 : ℝ) - (mean2 (window2 ws prices i) : ℝ)) /
    std2 (window2 ws prices i)

section
open Classical

/-- `is_anomaly = abs(z_score) > self.threshold` in the loop body of
`StockMonitor.detect_anomalies`. -/
noncomputable def isAnomaly2 (ws : ℕ) (t : ℚ) (prices : List ℚ) (i : ℕ) : Bool :=
  decide (|zScore2 ws prices i| > (t : ℝ))

end

theorem dropDupFirst_congr (s s' : List ℤ) (l : List Row)
    (h : ∀ z, z ∈ s ↔ z ∈ s') :
    dropDupFirst s l = dropDupFirst s' l := by
  induction l generalizing s s' with
  | nil => rfl
  | cons r rs ih =>
    by_cases hr : r.time ∈ s
    · rw [dropDupFirst, if_pos hr, dropDupFirst, if_pos ((h _).mp hr), ih _ _ h]
    · rw [dropDupFirst, if_neg hr, dropDupFirst,
        if_neg (fun hx => hr ((h _).mpr hx)), ih]
      intro z
      simp only [List.mem_cons]
      constructor
      · rintro (hz | hz)
        · exact Or.inl hz
        · exact Or.inr ((h z).mp hz)
      · rintro (hz | hz)
        · exact Or.inl hz
        · exact Or.inr ((h z).mpr hz)

theorem mem_timesOf_dropDupFirst (s : List ℤ) (l : List Row) (z : ℤ) :
    z ∈ timesOf (dropDupFirst s l) ↔ z ∈ timesOf l ∧ z ∉ s := by
  induction l generalizing s with
  | nil => simp [dropDupFirst, timesOf]
  | cons r rs ih =>
    by_cases hr : r.time ∈ s
    · rw [dropDupFirst, if_pos hr, ih]
      simp only [timesOf, List.map_cons, List.mem_cons]
      constructor
      · rintro ⟨hz, hs⟩
        exact ⟨Or.inr hz, hs⟩
      · rintro ⟨hz | hz, hs⟩
        · exact absurd (hz ▸ hr) hs
        · exact ⟨hz, hs⟩
    · rw [dropDupFirst, if_neg hr]
      have hcons : ∀ (x : Row) (l : List Row),
          timesOf (x :: l) = x.time :: timesOf l := fun _ _ => rfl
      rw [hcons, hcons]
      simp only [List.mem_cons]
      rw [ih (r.time :: s)]
      constructor
      · rintro (rfl | ⟨hz, hns⟩)
        · exact ⟨Or.inl rfl, hr⟩
        · rw [List.mem_cons] at hns
          push_neg at hns
          exact ⟨Or.inr hz, hns.2⟩
      · rintro ⟨rfl | hz, hs⟩
        · exact Or.inl rfl
        · by_cases hzr : z = r.time
          · exact Or.inl hzr
          · refine Or.inr ⟨hz, ?_⟩
            rw [List.mem_cons]
            push_neg
            exact ⟨hzr, hs⟩

theorem mem_dropDupFirst (s : List ℤ) (l : List Row) (r : Row)
    (h : r ∈ dropDupFirst s l) : r ∈ l ∧ r.time ∉ s := by
  induction l generalizing s with
  | nil => simp [dropDupFirst] at h
  | cons a rs ih =>
    by_cases ha : a.time ∈ s
    · rw [dropDupFirst, if_pos ha] at h
      rcases ih _ h with ⟨h1, h2⟩
      exact ⟨List.mem_cons_of_mem _ h1, h2⟩
    · rw [dropDupFirst, if_neg ha] at h
      rcases List.mem_cons.mp h with rfl | hmem
      · exact ⟨List.mem_cons_self _ _, ha⟩
      · rcases ih _ hmem with ⟨h1, h2⟩
        refine ⟨List.mem_cons_of_mem _ h1, fun hs => h2 (List.mem_cons_of_mem _ hs)⟩

theorem nodup_timesOf_dropDupFirst (s : List ℤ) (l : List Row) :
    (timesOf (dropDupFirst s l)).Nodup := by
  induction l generalizing s with
  | nil => simp [dropDupFirst, timesOf]
  | cons r rs ih =>
    by_cases hr : r.time ∈ s
    · rw [dropDupFirst, if_pos hr]
      exact ih s
    · rw [dropDupFirst, if_neg hr]
      simp only [timesOf, List.map_cons]
      refine List.nodup_cons.mpr ⟨?_, ih _⟩
      intro hmem
      have := (mem_timesOf_dropDupFirst _ _ _).mp hmem
      exact this.2 (List.mem_cons_self _ _)

theorem dropDupFirst_eq_nil (s : List ℤ) (l : List Row)
    (h : ∀ r ∈ l, r.time ∈ s) : dropDupFirst s l = [] := by
  induction l with
  | nil => rfl
  | cons r rs ih =>
    rw [dropDupFirst, if_pos (h r (List.mem_cons_self _ _))]
    exact ih fun a ha => h a (List.mem_cons_of_mem _ ha)

theorem dropDupFirst_eq_self (s : List ℤ) (l : List Row)
    (hnodup : (timesOf l).Nodup) (h : ∀ r ∈ l, r.time ∉ s) :
    dropDupFirst s l = l := by
  induction l generalizing s with
  | nil => rfl
  | cons r rs ih =>
    simp only [timesOf, List.map_cons, List.nodup_cons] at hnodup
    rw [dropDupFirst, if_neg (h r (List.mem_cons_self _ _))]
    congr 1
    apply ih _ hnodup.2
    intro a ha
    simp only [List.mem_cons]
    rintro (hat | hat)
    · exact hnodup.1 (hat ▸ List.mem_map_of_mem Row.time ha)
    · exact h a (List.mem_cons_of_mem _ ha) hat

theorem dropDupFirst_append (s : List ℤ) (a b : List Row) :
    dropDupFirst s (a ++ b) =
      dropDupFirst s a ++ dropDupFirst (timesOf (dropDupFirst s a) ++ s) b := by
  induction a generalizing s with
  | nil => simp [dropDupFirst, timesOf]
  | cons r rs ih =>
    by_cases hr : r.time ∈ s
    · rw [List.cons_append, dropDupFirst, if_pos hr, dropDupFirst, if_pos hr, ih]
    · rw [List.cons_append, dropDupFirst, if_neg hr, dropDupFirst, if_neg hr, ih]
      rw [List.cons_append]
      have hcongr :
          dropDupFirst (timesOf (dropDupFirst (r.time :: s) rs) ++ r.time :: s) b =
            dropDupFirst (timesOf (r :: dropDupFirst (r.time :: s) rs) ++ s) b := by
        apply dropDupFirst_congr
        intro z
        simp only [timesOf, List.map_cons, List.mem_append, List.mem_cons]
        tauto
      rw [hcongr]

theorem timesOf_append (a b : List Row) :
    timesOf (a ++ b) = timesOf a ++ timesOf b := by
  unfold timesOf
  exact List.map_append _ _ _

/-- Claim C8: `update_history` (SeriesStore.merge) is idempotent: for every
stored series and every batch with unique timestamps, merging the same batch
twice yields a series identical, by content and order, to merging it once. -/
theorem update_history_idempotent (hist new : List Row)
    (hnodup : (timesOf new).Nodup) :
    update_history (update_history hist (some new)) (some new) =
      update_history hist (some new) := by
  cases new with
  | nil => rfl
  | cons r rs =>
    simp only [update_history]
    rw [dropDupFirst_append]
    have hself : dropDupFirst [] (dropDupFirst [] (hist ++ r :: rs)) =
        dropDupFirst [] (hist ++ r :: rs) :=
      dropDupFirst_eq_self _ _ (nodup_timesOf_dropDupFirst _ _) (by simp)
    rw [hself]
    have hnil : dropDupFirst
        (timesOf (dropDupFirst [] (hist ++ r :: rs)) ++ []) (r :: rs) = [] := by
      apply dropDupFirst_eq_nil
      intro a ha
      rw [List.mem_append]
      left
      rw [mem_timesOf_dropDupFirst]
      refine ⟨?_, by simp⟩
      rw [timesOf_append, List.mem_append]
      right
      exact List.mem_map_of_mem Row.time ha
    rw [hnil, List.append_nil]

/-- Witness for claim C8 at a concrete series and batch. -/
theorem update_history_idempotent_w :
    (timesOf [⟨1, 5, none, none, "isolation", true⟩,
      ⟨2, 6, none, none, "isolation", true⟩]).Nodup ∧
    update_history
      (update_history [⟨7, 4, none, none, "isolation", true⟩]
        (some [⟨1, 5, none, none, "isolation", true⟩,
          ⟨2, 6, none, none, "isolation", true⟩]))
      (some [⟨1, 5, none, none, "isolation", true⟩,
        ⟨2, 6, none, none, "isolation", true⟩]) =
    update_history [⟨7, 4, none, none, "isolation", true⟩]
      (some [⟨1, 5, none, none, "isolation", true⟩,
        ⟨2, 6, none, none, "isolation", true⟩]) :=
  ⟨by simp [timesOf], update_history_idempotent _ _ (by simp [timesOf])⟩

/-- Counterexample for claim C2: merging a batch whose timestamp precedes the
stored series leaves the series unsorted — `update_history` never re-sorts. -/
theorem update_history_not_sorted_cx :
    ¬ sortedByTime
      (update_history
        (update_history [] (some [⟨5, 10, none, none, "isolation", true⟩]))
        (some [⟨3, 11, none, none, "isolation", true⟩])) := by
  have hval : update_history
      (update_history [] (some [⟨5, 10, none, none, "isolation", true⟩]))
      (some [⟨3, 11, none, none, "isolation", true⟩]) =
      [⟨5, 10, none, none, "isolation", true⟩,
        ⟨3, 11, none, none, "isolation", true⟩] := by
    simp [update_history, dropDupFirst]
  rw [hval, sortedByTime]
  intro h
  have := List.rel_of_pairwise_cons h (List.mem_cons_self _ _)
  simp at this

/-- Claim C2 (amended): after `update_history` of a nonempty batch into a
series with unique timestamps, the result is the stored series followed by
the batch rows whose timestamps are new (first occurrence kept, batch order
preserved, no re-sorting); its timestamps are exactly the union, each present
once, and every row is a stored row or a batch row with an unseen timestamp. -/
theorem update_history_merge_amended (hist new : List Row)
    (hnodup : (timesOf hist).Nodup) (hne : new ≠ []) :
    update_history hist (some new) = hist ++ dropDupFirst (timesOf hist) new ∧
    (timesOf (update_history hist (some new))).Nodup ∧
    (∀ z : ℤ, z ∈ timesOf (update_history hist (some new)) ↔
      z ∈ timesOf hist ∨ z ∈ timesOf new) ∧
    (∀ r ∈ update_history hist (some new),
      r ∈ hist ∨ (r ∈ new ∧ r.time ∉ timesOf hist)) := by
  obtain ⟨r, rs, rfl⟩ : ∃ a l, new = a :: l := by
    cases new with
    | nil => exact absurd rfl hne
    | cons a l => exact ⟨a, l, rfl⟩
  have heq : update_history hist (some (r :: rs)) =
      hist ++ dropDupFirst (timesOf hist) (r :: rs) := by
    simp only [update_history]
    rw [dropDupFirst_append, dropDupFirst_eq_self [] hist hnodup (by simp),
      List.append_nil]
  refine ⟨heq, ?_, ?_, ?_⟩
  · rw [heq, timesOf_append]
    refine List.Nodup.append hnodup (nodup_timesOf_dropDupFirst _ _) ?_
    intro z hz1 hz2
    exact ((mem_timesOf_dropDupFirst _ _ _).mp hz2).2 hz1
  · intro z
    rw [heq, timesOf_append, List.mem_append, mem_timesOf_dropDupFirst]
    by_cases hz : z ∈ timesOf hist
    · simp [hz]
    · simp [hz]
  · intro a ha
    rw [heq, List.mem_append] at ha
    rcases ha with ha | ha
    · exact Or.inl ha
    · exact Or.inr (mem_dropDupFirst _ _ _ ha)

/-- Witness for the amended claim C2 at a concrete series and batch. -/
theorem update_history_merge_amended_w :
    (timesOf [⟨4, 9, none, none, "isolation", true⟩]).Nodup ∧
    ([⟨4, 8, none, none, "isolation", true⟩,
      ⟨6, 3, none, none, "isolation", true⟩] : List Row) ≠ [] ∧
    (update_history [⟨4, 9, none, none, "isolation", true⟩]
        (some [⟨4, 8, none, none, "isolation", true⟩,
          ⟨6, 3, none, none, "isolation", true⟩]) =
      [⟨4, 9, none, none, "isolation", true⟩] ++
        dropDupFirst (timesOf [⟨4, 9, none, none, "isolation", true⟩])
          [⟨4, 8, none, none, "isolation", true⟩,
            ⟨6, 3, none, none, "isolation", true⟩] ∧
    (timesOf (update_history [⟨4, 9, none, none, "isolation", true⟩]
        (some [⟨4, 8, none, none, "isolation", true⟩,
          ⟨6, 3, none, none, "isolation", true⟩]))).Nodup ∧
    (∀ z : ℤ, z ∈ timesOf (update_history [⟨4, 9, none, none, "isolation", true⟩]
        (some [⟨4, 8, none, none, "isolation", true⟩,
          ⟨6, 3, none, none, "isolation", true⟩])) ↔
      z ∈ timesOf [⟨4, 9, none, none, "isolation", true⟩] ∨
        z ∈ timesOf [⟨4, 8, none, none, "isolation", true⟩,
          ⟨6, 3, none, none, "isolation", true⟩]) ∧
    (∀ r ∈ update_history [⟨4, 9, none, none, "isolation", true⟩]
        (some [⟨4, 8, none, none, "isolation", true⟩,
          ⟨6, 3, none, none, "isolation", true⟩]),
      r ∈ [⟨4, 9, none, none, "isolation", true⟩] ∨
        (r ∈ [⟨4, 8, none, none, "isolation", true⟩,
          ⟨6, 3, none, none, "isolation", true⟩] ∧
          r.time ∉ timesOf [⟨4, 9, none, none, "isolation", true⟩]))) :=
  ⟨by simp [timesOf], by simp,
    update_history_merge_amended _ _ (by simp [timesOf]) (by simp)⟩

theorem zscoreRecords_eq (ws : ℕ) (t : ℚ) (data : List (ℤ × ℚ)) :
    zscoreRecords ws t data =
      ((List.range data.length).filter fun i =>
          decide (ws ≤ i ∧ (t : ℝ) <
            |(((pricesOf data).getD i 0 : ℝ) -
              (npMean (window ws (pricesOf data) i) : ℝ)) /
              npStd (window ws (pricesOf data) i)|)).map fun i =>
        (⟨(timestampsOf data).getD i 0, (pricesOf data).getD i 0,
          some (npMean (window ws (pricesOf data) i)),
          some (npStd (window ws (pricesOf data) i)), "zscore", true⟩ : Row) := by
  classical
  unfold zscoreRecords
  have hplen : (pricesOf data).length = data.length := List.length_map _ _
  have hfilter : ((List.range data.length).filter fun i =>
      anomaliesAt ws t (pricesOf data) i) =
      ((List.range data.length).filter fun i =>
        decide (ws ≤ i ∧ (t : ℝ) <
          |(((pricesOf data).getD i 0 : ℝ) -
            (npMean (window ws (pricesOf data) i) : ℝ)) /
            npStd (window ws (pricesOf data) i)|)) := by
    apply List.filter_congr
    intro i hi
    have hi2 : i < (pricesOf data).length := by
      rw [hplen]
      exact List.mem_range.mp hi
    exact anomaliesAt_eq_decide ws t (pricesOf data) i hi2
  rw [hfilter]
  apply List.map_congr_left
  intro i hi
  rcases List.mem_filter.mp hi with ⟨hir, hdec⟩
  have hic := of_decide_eq_true hdec
  have hi2 : i < (pricesOf data).length := by
    rw [hplen]
    exact List.mem_range.mp hir
  simp only [meansAt, stdsAt, if_pos (And.intro hic.1 hi2)]

/-- Claim C1: for `window_size ≥ 1` and `threshold > 0`, the parametric
(z-score) path of `detect` outputs exactly the rows for those indices `i`
with `window_size ≤ i < len(prices)` whose z-score against the trailing
window `prices[i - window_size : i]` exceeds the threshold in absolute
value; each output row carries the window mean and population standard
deviation; indices below `window_size` are never flagged; and the trailing
window of every evaluated index has exactly `window_size` points. -/
theorem zscore_detect_characterization (pf : List ℚ → List ℚ → List ℤ)
    (fitOk : Bool) (ws : ℕ) (t : ℚ) (models : Cache) (data : List (ℤ × ℚ))
    (hws : 1 ≤ ws) (ht : 0 < t) (hlen : ws ≤ data.length) :
    detect pf fitOk ws t models data "zscore" =
      (models, .ok (some
        (((List.range data.length).filter fun i =>
            decide (ws ≤ i ∧ (t : ℝ) <
              |(((pricesOf data).getD i 0 : ℝ) -
                (npMean (window ws (pricesOf data) i) : ℝ)) /
                npStd (window ws (pricesOf data) i)|)).map fun i =>
          (⟨(timestampsOf data).getD i 0, (pricesOf data).getD i 0,
            some (npMean (window ws (pricesOf data) i)),
            some (npStd (window ws (pricesOf data) i)), "zscore", true⟩ : Row)))) ∧
    (∀ i, i < ws → anomaliesAt ws t (pricesOf data) i = false) ∧
    (∀ i, ws ≤ i → i < data.length →
      (window ws (pricesOf data) i).length = ws) := by
  refine ⟨?_, ?_, ?_⟩
  · unfold detect
    rw [if_neg (not_lt.mpr hlen), if_pos rfl, zscoreRecords_eq]
  · intro i hi
    unfold anomaliesAt
    rw [if_neg]
    rintro ⟨h1, _⟩
    omega
  · intro i h1 h2
    apply window_length ws (pricesOf data) i h1
    rw [pricesOf, List.length_map]
    exact h2

/-- Witness for claim C1 at a concrete configuration and batch. -/
theorem zscore_detect_characterization_w :
    1 ≤ 1 ∧ (0 : ℚ) < 2 ∧ 1 ≤ ([((0 : ℤ), (3 : ℚ)), (1, 10)] : List (ℤ × ℚ)).length ∧
    (detect (fun _ _ => []) true 1 2 [] [((0 : ℤ), (3 : ℚ)), (1, 10)] "zscore" =
      ([], .ok (some
        (((List.range ([((0 : ℤ), (3 : ℚ)), (1, 10)] : List (ℤ × ℚ)).length).filter fun i =>
            decide (1 ≤ i ∧ ((2 : ℚ) : ℝ) <
              |(((pricesOf [((0 : ℤ), (3 : ℚ)), (1, 10)]).getD i 0 : ℝ) -
                (npMean (window 1 (pricesOf [((0 : ℤ), (3 : ℚ)), (1, 10)]) i) : ℝ)) /
                npStd (window 1 (pricesOf [((0 : ℤ), (3 : ℚ)), (1, 10)]) i)|)).map fun i =>
          (⟨(timestampsOf [((0 : ℤ), (3 : ℚ)), (1, 10)]).getD i 0,
            (pricesOf [((0 : ℤ), (3 : ℚ)), (1, 10)]).getD i 0,
            some (npMean (window 1 (pricesOf [((0 : ℤ), (3 : ℚ)), (1, 10)]) i)),
            some (npStd (window 1 (pricesOf [((0 : ℤ), (3 : ℚ)), (1, 10)]) i)),
            "zscore", true⟩ : Row)))) ∧
    (∀ i, i < 1 → anomaliesAt 1 2 (pricesOf [((0 : ℤ), (3 : ℚ)), (1, 10)]) i = false) ∧
    (∀ i, 1 ≤ i → i < ([((0 : ℤ), (3 : ℚ)), (1, 10)] : List (ℤ × ℚ)).length →
      (window 1 (pricesOf [((0 : ℤ), (3 : ℚ)), (1, 10)]) i).length = 1)) :=
  ⟨le_refl 1, by norm_num, by simp,
    zscore_detect_characterization (fun _ _ => []) true 1 2 []
      [((0 : ℤ), (3 : ℚ)), (1, 10)] (le_refl 1) (by norm_num) (by simp)⟩

/-- Claim C3: when the trailing window has zero variance (constant prices),
the z-score is treated as zero and point `i` is never flagged, whatever the
value of `prices[i]`; no division by zero occurs. -/
theorem zscore_zero_variance_never_flags (ws : ℕ) (t : ℚ) (prices : List ℚ)
    (i : ℕ) (hvar : npVar (window ws prices i) = 0) (ht : 0 ≤ t) :
    zScoreAt ws prices i = 0 ∧ anomaliesAt ws t prices i = false := by
  have hz : zScoreAt ws prices i = 0 := by
    unfold zScoreAt
    rw [if_pos hvar]
  refine ⟨hz, ?_⟩
  unfold anomaliesAt
  by_cases hg : ws ≤ i ∧ i < prices.length
  · rw [if_pos hg, hz]
    apply decide_eq_false
    simp only [abs_zero, not_lt]
    exact_mod_cast ht
  · rw [if_neg hg]

/-- Witness for claim C3: a constant window followed by a huge spike. -/
theorem zscore_zero_variance_never_flags_w :
    npVar (window 2 [10, 10, 1000] 2) = 0 ∧ (0 : ℚ) ≤ 3 ∧
    (zScoreAt 2 [10, 10, 1000] 2 = 0 ∧ anomaliesAt 2 3 [10, 10, 1000] 2 = false) := by
  refine ⟨?_, by norm_num, ?_⟩
  · norm_num [npVar, npMean, window]
  · exact (zscore_zero_variance_never_flags 2 3 [10, 10, 1000] 2
      (by norm_num [npVar, npMean, window]) (by norm_num)).imp (fun h => h) (fun h => h)

theorem replicate_false_getD (n i : ℕ) :
    (List.replicate n false).getD i false = false := by
  induction n generalizing i with
  | zero => cases i <;> rfl
  | succ m ih =>
    cases i with
    | zero => rfl
    | succ j => exact ih j

theorem isolationRecords_replicate_false (data : List (ℤ × ℚ)) (n : ℕ) :
    isolationRecords data (List.replicate n false) = [] := by
  unfold isolationRecords
  have hf : ((List.range data.length).filter fun i =>
      (List.replicate n false).getD i false) = [] := by
    have := List.filter_congr
      (fun i _ => replicate_false_getD n i :
        ∀ i ∈ List.range data.length,
          ((List.replicate n false).getD i false) = false)
    rw [this, List.filter_false]
  rw [hf, List.map_nil]

/-- Claim C5: with fewer than `window_size` points, `detect` returns `None`
(no anomaly output, no error); on the isolation path with fewer than
`2 * window_size` points it returns `None` or an empty record list, and in
either case no error is raised and the model cache is untouched. -/
theorem detect_insufficient_data (pf : List ℚ → List ℚ → List ℤ)
    (fitOk : Bool) (ws : ℕ) (t : ℚ) (models : Cache) (data : List (ℤ × ℚ)) :
    (data.length < ws →
      detect pf fitOk ws t models data "zscore" = (models, .ok none)) ∧
    (data.length < 2 * ws →
      detect pf fitOk ws t models data "isolation" = (models, .ok none) ∨
      detect pf fitOk ws t models data "isolation" = (models, .ok (some []))) := by
  constructor
  · intro h
    unfold detect
    rw [if_pos h]
  · intro h
    by_cases hws : data.length < ws
    · left
      unfold detect
      rw [if_pos hws]
    · right
      unfold detect
      rw [if_neg hws, if_neg (by simp), if_pos rfl]
      have hiso : isolation_forest_detection pf fitOk ws models (pricesOf data) =
          ⟨models, 0, .ok (List.replicate (pricesOf data).length false)⟩ := by
        unfold isolation_forest_detection
        rw [if_pos]
        rw [pricesOf, List.length_map]
        omega
      rw [hiso]
      show (models, Except.ok (some (isolationRecords data
        (List.replicate (pricesOf data).length false)))) =
        (models, Except.ok (some ([] : List Row)))
      rw [isolationRecords_replicate_false]

/-- Witness for claim C5: a one-point batch with `window_size = 2`. -/
theorem detect_insufficient_data_w :
    ([((0 : ℤ), (7 : ℚ))] : List (ℤ × ℚ)).length < 2 ∧
    ([((0 : ℤ), (7 : ℚ))] : List (ℤ × ℚ)).length < 2 * 2 ∧
    detect (fun _ _ => []) true 2 3 [] [((0 : ℤ), (7 : ℚ))] "zscore" =
      ([], .ok none) ∧
    (detect (fun _ _ => []) true 2 3 [] [((0 : ℤ), (7 : ℚ))] "isolation" =
        ([], .ok none) ∨
      detect (fun _ _ => []) true 2 3 [] [((0 : ℤ), (7 : ℚ))] "isolation" =
        ([], .ok (some []))) := by
  have h := detect_insufficient_data (fun _ _ => []) true 2 3 []
    [((0 : ℤ), (7 : ℚ))]
  exact ⟨by norm_num, by norm_num, h.1 (by norm_num), h.2 (by norm_num)⟩

/-- Claim C10: on a batch with at least `window_size` points and a method
string other than `zscore` and `isolation`, `detect` raises `ValueError`,
leaves the model cache untouched, and produces no anomaly records. -/
theorem detect_unknown_method (pf : List ℚ → List ℚ → List ℤ) (fitOk : Bool)
    (ws : ℕ) (t : ℚ) (models : Cache) (data : List (ℤ × ℚ)) (method : String)
    (hlen : ws ≤ data.length) (h1 : method ≠ "zscore") (h2 : method ≠ "isolation") :
    detect pf fitOk ws t models data method =
      (models, .error ("Unknown method: " ++ method)) := by
  unfold detect
  rw [if_neg (not_lt.mpr hlen), if_neg h1, if_neg h2]

/-- Witness for claim C10 at a concrete batch and method string. -/
theorem detect_unknown_method_w :
    2 ≤ ([((0 : ℤ), (1 : ℚ)), (1, 2)] : List (ℤ × ℚ)).length ∧
    ("median" : String) ≠ "zscore" ∧ ("median" : String) ≠ "isolation" ∧
    detect (fun _ _ => []) true 2 3 [] [((0 : ℤ), (1 : ℚ)), (1, 2)] "median" =
      ([], .error ("Unknown method: " ++ "median")) :=
  ⟨by norm_num, by decide, by decide,
    detect_unknown_method (fun _ _ => []) true 2 3 []
      [((0 : ℤ), (1 : ℚ)), (1, 2)] "median" (by norm_num) (by decide) (by decide)⟩

theorem lookupCache_insertCache (c : Cache) (k : List ℚ) (m : IFModel) :
    lookupCache (insertCache c k m) k = some m := by
  unfold lookupCache insertCache
  rw [List.find?_cons_of_pos _ (by simp)]
  rfl

/-- Claim C4: with the cache cold for the key, a first density-detector call
on a long-enough input fits exactly one model — on the leading `window_size`
prices, with contamination 0.05 — and caches it under the key; any call on a
cache holding a fitted model under that key (in particular the second call)
performs no fit, leaves the cache unchanged, and runs the cached model's
prediction over its entire input sequence. -/
theorem isolation_model_cache_reuse (pf : List ℚ → List ℚ → List ℤ)
    (ws : ℕ) (models : Cache) (p1 p2 : List ℚ)
    (hk : p2.take ws = p1.take ws)
    (h1 : ws * 2 ≤ p1.length) (h2 : ws * 2 ≤ p2.length)
    (hnone : lookupCache models (p1.take ws) = none) :
    (isolation_forest_detection pf true ws models p1).fitAttempts = 1 ∧
    (isolation_forest_detection pf true ws models p1).models =
      insertCache (insertCache models (p1.take ws) ⟨1 / 20, none⟩)
        (p1.take ws) ⟨1 / 20, some (p1.take ws)⟩ ∧
    lookupCache (isolation_forest_detection pf true ws models p1).models
      (p1.take ws) = some ⟨1 / 20, some (p1.take ws)⟩ ∧
    (isolation_forest_detection pf true ws models p1).result =
      .ok ((pf (p1.take ws) p1).map fun v => decide (v = -1)) ∧
    (isolation_forest_detection pf true ws
        (isolation_forest_detection pf true ws models p1).models p2).fitAttempts = 0 ∧
    (isolation_forest_detection pf true ws
        (isolation_forest_detection pf true ws models p1).models p2).models =
      (isolation_forest_detection pf true ws models p1).models ∧
    (isolation_forest_detection pf true ws
        (isolation_forest_detection pf true ws models p1).models p2).result =
      .ok ((pf (p1.take ws) p2).map fun v => decide (v = -1)) := by
  have hc1 : isolation_forest_detection pf true ws models p1 =
      ⟨insertCache (insertCache models (p1.take ws) ⟨1 / 20, none⟩)
          (p1.take ws) ⟨1 / 20, some (p1.take ws)⟩, 1,
        .ok ((pf (p1.take ws) p1).map fun v => decide (v = -1))⟩ := by
    unfold isolation_forest_detection
    rw [if_neg (not_lt.mpr h1), hnone]
    rfl
  have hlook : lookupCache (isolation_forest_detection pf true ws models p1).models
      (p1.take ws) = some ⟨1 / 20, some (p1.take ws)⟩ := by
    rw [hc1]
    exact lookupCache_insertCache _ _ _
  have hre : ∀ c : Cache, lookupCache c (p1.take ws) =
      some ⟨1 / 20, some (p1.take ws)⟩ →
      isolation_forest_detection pf true ws c p2 =
        ⟨c, 0, .ok ((pf (p1.take ws) p2).map fun v => decide (v = -1))⟩ := by
    intro c hc
    unfold isolation_forest_detection
    rw [if_neg (not_lt.mpr h2), hk, hc]
    rfl
  have hc2 := hre _ hlook
  refine ⟨by rw [hc1], by rw [hc1], hlook, by rw [hc1], by rw [hc2], by rw [hc2],
    by rw [hc2]⟩

/-- Witness for claim C4 at a concrete configuration: two calls sharing the
leading window `[1]` with different tails. -/
theorem isolation_model_cache_reuse_w :
    ([(1 : ℚ), 3] : List ℚ).take 1 = ([(1 : ℚ), 2] : List ℚ).take 1 ∧
    1 * 2 ≤ ([(1 : ℚ), 2] : List ℚ).length ∧
    1 * 2 ≤ ([(1 : ℚ), 3] : List ℚ).length ∧
    lookupCache [] (([(1 : ℚ), 2] : List ℚ).take 1) = none ∧
    ((isolation_forest_detection (fun _ xs => xs.map fun _ => -1) true 1 []
        [(1 : ℚ), 2]).fitAttempts = 1 ∧
      (isolation_forest_detection (fun _ xs => xs.map fun _ => -1) true 1 []
          [(1 : ℚ), 2]).models =
        insertCache (insertCache [] (([(1 : ℚ), 2] : List ℚ).take 1) ⟨1 / 20, none⟩)
          (([(1 : ℚ), 2] : List ℚ).take 1)
          ⟨1 / 20, some (([(1 : ℚ), 2] : List ℚ).take 1)⟩ ∧
      lookupCache (isolation_forest_detection (fun _ xs => xs.map fun _ => -1)
          true 1 [] [(1 : ℚ), 2]).models (([(1 : ℚ), 2] : List ℚ).take 1) =
        some ⟨1 / 20, some (([(1 : ℚ), 2] : List ℚ).take 1)⟩ ∧
      (isolation_forest_detection (fun _ xs => xs.map fun _ => -1) true 1 []
          [(1 : ℚ), 2]).result =
        .ok ((([(1 : ℚ), 2] : List ℚ).map fun _ => (-1 : ℤ)).map
          fun v => decide (v = -1)) ∧
      (isolation_forest_detection (fun _ xs => xs.map fun _ => -1) true 1
          (isolation_forest_detection (fun _ xs => xs.map fun _ => -1) true 1 []
            [(1 : ℚ), 2]).models [(1 : ℚ), 3]).fitAttempts = 0 ∧
      (isolation_forest_detection (fun _ xs => xs.map fun _ => -1) true 1
          (isolation_forest_detection (fun _ xs => xs.map fun _ => -1) true 1 []
            [(1 : ℚ), 2]).models [(1 : ℚ), 3]).models =
        (isolation_forest_detection (fun _ xs => xs.map fun _ => -1) true 1 []
          [(1 : ℚ), 2]).models ∧
      (isolation_forest_detection (fun _ xs => xs.map fun _ => -1) true 1
          (isolation_forest_detection (fun _ xs => xs.map fun _ => -1) true 1 []
            [(1 : ℚ), 2]).models [(1 : ℚ), 3]).result =
        .ok ((([(1 : ℚ), 3] : List ℚ).map fun _ => (-1 : ℤ)).map
          fun v => decide (v = -1))) :=
  ⟨rfl, by norm_num, by norm_num, rfl,
    isolation_model_cache_reuse (fun _ xs => xs.map fun _ => -1) 1 []
      [(1 : ℚ), 2] [(1 : ℚ), 3] rfl (by norm_num) (by norm_num) rfl⟩

/-- Claim C7 is violated by the code: while processing instrument X, a fit
exception leaves the just-constructed unfitted model cached under X's key
(the assignment `self.models[key] = IsolationForest(...)` precedes `.fit`).
A later isolation call for instrument Y whose leading window collides with
that key finds the key present, never fits, and predict on the unfitted
model raises — the partially-constructed state is observable by Y. -/
theorem unfitted_model_cached_on_fit_failure :
    (isolation_forest_detection (fun _ xs => xs.map fun _ => -1) false 1 []
      [(5 : ℚ), 6]).result = .error "fit raised" ∧
    lookupCache (isolation_forest_detection (fun _ xs => xs.map fun _ => -1)
      false 1 [] [(5 : ℚ), 6]).models [(5 : ℚ)] =
      some ⟨1 / 20, none⟩ ∧
    (isolation_forest_detection (fun _ xs => xs.map fun _ => -1) true 1
      (isolation_forest_detection (fun _ xs => xs.map fun _ => -1) false 1 []
        [(5 : ℚ), 6]).models [(5 : ℚ), 7]).result = .error "model not fitted" ∧
    (isolation_forest_detection (fun _ xs => xs.map fun _ => -1) true 1
      (isolation_forest_detection (fun _ xs => xs.map fun _ => -1) false 1 []
        [(5 : ℚ), 6]).models [(5 : ℚ), 7]).fitAttempts = 0 := by
  refine ⟨rfl, ?_, rfl, rfl⟩
  rfl

/-- Claim C9: the two duplicate z-score implementations agree on the core
computation at every evaluated index: same window mean, same standard
deviation, same z-score, and the same anomaly flag. -/
theorem zscore_impls_equivalent (ws : ℕ) (t : ℚ) (prices : List ℚ) (i : ℕ)
    (h1 : ws ≤ i) (h2 : i < prices.length) :
    mean2 (window2 ws prices i) = npMean (window ws prices i) ∧
    std2 (window2 ws prices i) = npStd (window ws prices i) ∧
    zScore2 ws prices i = zScoreAt ws prices i ∧
    isAnomaly2 ws t prices i = anomaliesAt ws t prices i := by
  have hz : zScore2 ws prices i = zScoreAt ws prices i := rfl
  refine ⟨rfl, rfl, hz, ?_⟩
  unfold anomaliesAt
  rw [if_pos (And.intro h1 h2)]
  rfl

/-- Witness for claim C9 at a concrete sequence and index. -/
theorem zscore_impls_equivalent_w :
    1 ≤ 1 ∧ 1 < ([(1 : ℚ), 2] : List ℚ).length ∧
    (mean2 (window2 1 [(1 : ℚ), 2] 1) = npMean (window 1 [(1 : ℚ), 2] 1) ∧
      std2 (window2 1 [(1 : ℚ), 2] 1) = npStd (window 1 [(1 : ℚ), 2] 1) ∧
      zScore2 1 [(1 : ℚ), 2] 1 = zScoreAt 1 [(1 : ℚ), 2] 1 ∧
      isAnomaly2 1 3 [(1 : ℚ), 2] 1 = anomaliesAt 1 3 [(1 : ℚ), 2] 1) :=
  ⟨le_refl 1, by norm_num,
    zscore_impls_equivalent 1 3 [(1 : ℚ), 2] 1 (le_refl 1) (by norm_num)⟩

theorem zscoreRecords_eq_nil_of_le (ws : ℕ) (t : ℚ) (data : List (ℤ × ℚ))
    (h : data.length ≤ ws) : zscoreRecords ws t data = [] := by
  unfold zscoreRecords
  have hf : ((List.range data.length).filter fun i =>
      anomaliesAt ws t (pricesOf data) i) = [] := by
    have hc : ∀ i ∈ List.range data.length,
        anomaliesAt ws t (pricesOf data) i = false := by
      intro i hi
      unfold anomaliesAt
      rw [if_neg]
      rintro ⟨hg1, _⟩
      have := List.mem_range.mp hi
      omega
    rw [List.filter_congr hc, List.filter_false]
  rw [hf, List.map_nil]

theorem process_ticker_run (pf : List ℚ → List ℚ → List ℤ) (fitOk : Bool)
    (ws : ℕ) (t : ℚ) (models mz m1 : Cache) (hist : List Row)
    (d : List (ℤ × ℚ)) (zr ir : Option (List Row)) (hne : d ≠ [])
    (hz : detect pf fitOk ws t models d "zscore" = (mz, .ok zr))
    (hiso : detect pf fitOk ws t models d "isolation" = (m1, .ok ir)) :
    process_ticker pf fitOk ws t models hist (some d) =
      (m1, update_history (update_history hist zr) ir) := by
  have hie : d.isEmpty = false := by
    cases d with
    | nil => exact absurd rfl hne
    | cons a l => rfl
  simp only [process_ticker]
  rw [hie, hz, hiso]
  rfl

theorem detect_zscore_d0 :
    detect (fun _ xs => xs.map fun _ => 1) true 2 3 []
      [((0 : ℤ), (10 : ℚ)), (1, 10)] "zscore" = ([], .ok (some [])) := by
  unfold detect
  rw [if_neg (by decide), if_pos rfl,
    zscoreRecords_eq_nil_of_le 2 3 _ (by decide)]

theorem detect_isolation_d0 :
    detect (fun _ xs => xs.map fun _ => 1) true 2 3 []
      [((0 : ℤ), (10 : ℚ)), (1, 10)] "isolation" = ([], .ok (some [])) := by
  unfold detect
  rw [if_neg (by decide), if_neg (by decide), if_pos rfl]
  have hiso : isolation_forest_detection (fun _ xs => xs.map fun _ => 1) true 2 []
      (pricesOf [((0 : ℤ), (10 : ℚ)), (1, 10)]) =
      ⟨[], 0, .ok (List.replicate
        (pricesOf [((0 : ℤ), (10 : ℚ)), (1, 10)]).length false)⟩ := by
    unfold isolation_forest_detection
    rw [if_pos (by decide)]
  rw [hiso]
  show ([], Except.ok (some (isolationRecords [((0 : ℤ), (10 : ℚ)), (1, 10)]
    (List.replicate (pricesOf [((0 : ℤ), (10 : ℚ)), (1, 10)]).length false)))) =
    (([] : Cache), Except.ok (some ([] : List Row)))
  rw [isolationRecords_replicate_false]

/-- Counterexample for claim C6: a validated non-empty batch in which no
anomaly is found is not merged into the stored series at all — the monitor
merges only the detectors' result DataFrames, so the store stays empty and
none of the batch's points appear in it. -/
theorem process_ticker_batch_not_merged_cx :
    ¬ ∀ p ∈ ([((0 : ℤ), (10 : ℚ)), (1, 10)] : List (ℤ × ℚ)),
        ∃ r ∈ (process_ticker (fun _ xs => xs.map fun _ => 1) true 2 3 [] []
          (some [((0 : ℤ), (10 : ℚ)), (1, 10)])).2,
          r.time = p.1 ∧ r.close = p.2 := by
  have hrun := process_ticker_run (fun _ xs => xs.map fun _ => 1) true 2 3
    [] [] [] [] [((0 : ℤ), (10 : ℚ)), (1, 10)] (some []) (some [])
    (by simp) detect_zscore_d0 detect_isolation_d0
  intro h
  rcases h ((0 : ℤ), (10 : ℚ)) (by simp) with ⟨r, hr, _⟩
  rw [hrun] at hr
  simp [update_history] at hr

/-- Claim C6 (amended): for every validated non-empty batch on which the
isolation path succeeds, the monitor step merges only the detectors' anomaly
record DataFrames — the z-score result rows, then the isolation result
rows — into the stored series; the batch's own points are never merged, so a
batch without anomalies leaves the store unchanged. -/
theorem process_ticker_merges_records (pf : List ℚ → List ℚ → List ℤ)
    (fitOk : Bool) (ws : ℕ) (t : ℚ) (models m1 : Cache) (hist : List Row)
    (d : List (ℤ × ℚ)) (ir : Option (List Row)) (hne : d ≠ [])
    (hiso : detect pf fitOk ws t models d "isolation" = (m1, .ok ir)) :
    ∃ zr, detect pf fitOk ws t models d "zscore" = (models, .ok zr) ∧
      process_ticker pf fitOk ws t models hist (some d) =
        (m1, update_history (update_history hist zr) ir) := by
  have hz : detect pf fitOk ws t models d "zscore" =
      (models, .ok (if d.length < ws then none else some (zscoreRecords ws t d))) := by
    unfold detect
    by_cases hlen : d.length < ws
    · rw [if_pos hlen, if_pos hlen]
    · rw [if_neg hlen, if_neg hlen, if_pos rfl]
  exact ⟨_, hz,
    process_ticker_run pf fitOk ws t models models m1 hist d _ ir hne hz hiso⟩

/-- Witness for the amended claim C6 at a concrete anomaly-free batch. -/
theorem process_ticker_merges_records_w :
    ([((0 : ℤ), (10 : ℚ)), (1, 10)] : List (ℤ × ℚ)) ≠ [] ∧
    detect (fun _ xs => xs.map fun _ => 1) true 2 3 []
      [((0 : ℤ), (10 : ℚ)), (1, 10)] "isolation" = ([], .ok (some [])) ∧
    ∃ zr, detect (fun _ xs => xs.map fun _ => 1) true 2 3 []
        [((0 : ℤ), (10 : ℚ)), (1, 10)] "zscore" = ([], .ok zr) ∧
      process_ticker (fun _ xs => xs.map fun _ => 1) true 2 3 [] []
          (some [((0 : ℤ), (10 : ℚ)), (1, 10)]) =
        ([], update_history (update_history [] zr) (some [])) :=
  ⟨by simp, detect_isolation_d0,
    process_ticker_merges_records (fun _ xs => xs.map fun _ => 1) true 2 3 [] []
      [] [((0 : ℤ), (10 : ℚ)), (1, 10)] (some []) (by simp) detect_isolation_d0⟩
